import Mathlib

/-!
Verification of the bookmarks-search utility (src/index.tsx): the profile
locator, the bookmark flattener (`traverse`), and the surrounding UI state
updates, embedded shallowly in Lean.
-/

/-- JSON values as produced by the host's JSON.parse (numbers modelled as
integers; no claim involves fractional values). -/
inductive Json where
  | null : Json
  | bool (b : Bool) : Json
  | num (n : Int) : Json
  | str (s : String) : Json
  | arr (elems : List Json) : Json
  | obj (fields : List (String × Json)) : Json
deriving Repr

/-- Association lookup inside a JSON object (duplicate keys are not
distinguished; JSON.parse collapses them before the code ever looks). -/
def lookupField : List (String × Json) → String → Option Json
  | [], _ => none
  | (k, v) :: rest, key => if k = key then some v else lookupField rest key

/-- Property access `x.k` on a JS value that is neither null nor undefined:
objects yield the field's value (undefined when absent); primitives and
arrays have no such own property, so access yields undefined (`none`). -/
def getField : Json → String → Option Json
  | Json.obj fields, key => lookupField fields key
  | _, _ => none

def Json.isNull : Json → Bool
  | Json.null => true
  | _ => false

/-- JS truthiness of a possibly-undefined value (`none` models undefined). -/
def jsTruthy : Option Json → Bool
  | none => false
  | some Json.null => false
  | some (Json.bool b) => b
  | some (Json.num n) => n != 0
  | some (Json.str s) => s != ""
  | some (Json.arr _) => true
  | some (Json.obj _) => true

/-- Strict equality `v === "s"` of a possibly-undefined value against a
string literal. -/
def jsEqStr : Option Json → String → Bool
  | some (Json.str t), s => t == s
  | _, _ => false

/-- Optional chaining `v?.k`: null and undefined short-circuit to undefined
(for null the short-circuit coincides with `getField`, which has no fields
on null). -/
def optChainGet : Option Json → String → Option Json
  | none, _ => none
  | some j, key => getField j key

mutual
/-- JS string conversion as a template literal performs it. -/
def jsonToString : Json → String
  | Json.null => "null"
  | Json.bool true => "true"
  | Json.bool false => "false"
  | Json.num n => toString n
  | Json.str s => s
  | Json.arr elems => String.intercalate "," (elemStrings elems)
  | Json.obj _ => "[object Object]"

/-- Array elements stringify with null as the empty string (JS Array join). -/
def elemStrings : List Json → List String
  | [] => []
  | Json.null :: rest => "" :: elemStrings rest
  | j :: rest => jsonToString j :: elemStrings rest
end

/-- Template-literal conversion of a possibly-undefined value. -/
def jsToString : Option Json → String
  | none => "undefined"
  | some j => jsonToString j

/-- One record pushed into `items` (src lines 137–143). Field values are the
raw JS values read from unvalidated JSON (`none` = undefined); `source` is
the profile label. -/
structure BookmarkItem where
  id : Option Json
  title : Option Json
  url : Option Json
  path : Option Json
  source : String
deriving Repr

/-- The folder-path update (src lines 145–147): a truthy carried path is
extended with " / " and the node's name; otherwise the node's raw name value
becomes the new path. -/
def folderNewPath (folderPath : Option Json) (name : Option Json) : Option Json :=
  if jsTruthy folderPath then
    some (Json.str (jsToString folderPath ++ " / " ++ jsToString name))
  else name

theorem lookupField_sizeOf {fields : List (String × Json)} {key : String} {v : Json}
    (h : lookupField fields key = some v) : sizeOf v < 1 + sizeOf fields := by
  induction fields with
  | nil => simp [lookupField] at h
  | cons kv rest ih =>
    obtain ⟨k, w⟩ := kv
    rw [lookupField] at h
    by_cases hk : k = key
    · rw [if_pos hk] at h
      injection h with h
      subst h
      simp only [List.cons.sizeOf_spec, Prod.mk.sizeOf_spec]
      omega
    · rw [if_neg hk] at h
      have := ih h
      simp only [List.cons.sizeOf_spec, Prod.mk.sizeOf_spec]
      omega

theorem getField_sizeOf {node : Json} {key : String} {v : Json}
    (h : getField node key = some v) : sizeOf v < sizeOf node := by
  cases node <;> simp [getField] at h
  case obj fields =>
    have := lookupField_sizeOf h
    simp only [Json.obj.sizeOf_spec]
    omega

mutual
/-- src lines 135–150: the recursive traversal. Property access on JSON null
throws (`Except.error`), as does `forEach` on a truthy non-array `children`
value; both surface as the caught error of the whole fetch. -/
def traverse (profile : String) (node : Json) (folderPath : Option Json) :
    Except Unit (List BookmarkItem) :=
  if node.isNull then Except.error ()
  else if jsEqStr (getField node "type") "url" && jsTruthy (getField node "url") then
    Except.ok [⟨getField node "id", getField node "name", getField node "url",
      folderPath, profile⟩]
  else if jsTruthy (getField node "children") then
    match hc : getField node "children" with
    | some (Json.arr cs) =>
        traverseList profile cs (folderNewPath folderPath (getField node "name"))
    | _ => Except.error ()
  else Except.ok []
termination_by sizeOf node
decreasing_by
  have h1 := getField_sizeOf hc
  simp only [Json.arr.sizeOf_spec] at h1
  omega

/-- `children.forEach(child => traverse(child, newPath))`, with the pushes
of the sub-calls concatenated in visiting order. -/
def traverseList (profile : String) (nodes : List Json) (folderPath : Option Json) :
    Except Unit (List BookmarkItem) :=
  match nodes with
  | [] => Except.ok []
  | c :: rest =>
    match traverse profile c folderPath with
    | Except.error e => Except.error e
    | Except.ok items =>
      match traverseList profile rest folderPath with
      | Except.error e => Except.error e
      | Except.ok more => Except.ok (items ++ more)
termination_by sizeOf nodes
decreasing_by
  all_goals simp only [List.cons.sizeOf_spec]
  all_goals omega
end

/-- src lines 129–133: collect whichever of the three root trees are present
and truthy, in the fixed order. Accessing `.roots` on JSON null throws. -/
def extractRoots (json : Json) : Except Unit (List Json) :=
  if json.isNull then Except.error ()
  else
    let r := getField json "roots"
    Except.ok (([optChainGet r "bookmark_bar", optChainGet r "other",
      optChainGet r "synced"]).filterMap (fun v => if jsTruthy v then v else none))

/-- src lines 124–153: the flattener. `parsed` is the result of JSON.parse
on the file text (`none` = the text is not valid JSON, JSON.parse threw);
each root is traversed with the empty starting path. -/
def flattenText (parsed : Option Json) (profile : String) :
    Except Unit (List BookmarkItem) :=
  match parsed with
  | none => Except.error ()
  | some j =>
    match extractRoots j with
    | Except.error e => Except.error e
    | Except.ok roots => traverseList profile roots (some (Json.str ""))

/-! Branch lemmas for the well-founded `traverse`, used both for the claims
about individual branches and to evaluate it on concrete and encoded trees. -/

theorem traverse_null (profile : String) (folderPath : Option Json) :
    traverse profile Json.null folderPath = Except.error () := by
  rw [traverse.eq_def]
  rfl

theorem traverse_url {node : Json} (profile : String) (folderPath : Option Json)
    (hn : node.isNull = false)
    (ht : jsEqStr (getField node "type") "url" = true)
    (hu : jsTruthy (getField node "url") = true) :
    traverse profile node folderPath =
      Except.ok [⟨getField node "id", getField node "name", getField node "url",
        folderPath, profile⟩] := by
  rw [traverse.eq_def, hn, ht, hu]
  simp

theorem traverse_descend {node : Json} {cs : List Json} (profile : String)
    (folderPath : Option Json) (hn : node.isNull = false)
    (hb : (jsEqStr (getField node "type") "url" && jsTruthy (getField node "url")) = false)
    (hc : getField node "children" = some (Json.arr cs)) :
    traverse profile node folderPath =
      traverseList profile cs (folderNewPath folderPath (getField node "name")) := by
  have ht : jsTruthy (getField node "children") = true := by rw [hc]; rfl
  rw [traverse.eq_def, hn, hb, ht]
  simp only [Bool.false_eq_true, if_false, if_true]
  split
  · rename_i cs2 heq
    rw [hc] at heq
    injection heq with h1
    injection h1 with h2
    rw [h2]
  · rename_i hx
    exact (hx cs hc).elim

theorem traverse_skip {node : Json} (profile : String) (folderPath : Option Json)
    (hn : node.isNull = false)
    (hb : (jsEqStr (getField node "type") "url" && jsTruthy (getField node "url")) = false)
    (hc : jsTruthy (getField node "children") = false) :
    traverse profile node folderPath = Except.ok [] := by
  rw [traverse.eq_def, hn, hb, hc]
  simp

theorem traverseList_nil (profile : String) (folderPath : Option Json) :
    traverseList profile [] folderPath = Except.ok [] := by
  rw [traverseList.eq_def]

theorem traverseList_cons_ok {c : Json} {rest : List Json} {items more : List BookmarkItem}
    (profile : String) (folderPath : Option Json)
    (h1 : traverse profile c folderPath = Except.ok items)
    (h2 : traverseList profile rest folderPath = Except.ok more) :
    traverseList profile (c :: rest) folderPath = Except.ok (items ++ more) := by
  rw [traverseList.eq_def]
  simp [h1, h2]

/-! The spec's §3 data model: well-formed bookmark trees, and their encoding
as the JSON objects the bookmark file stores. `traverseB` is the structural
mirror of `traverse` on encoded trees, related by `traverse_toJson`. -/

/-- A BookmarkTreeNode per §3: a url-typed leaf (`url` present, no
`children`) or a folder (`children` present, no `url`). -/
inductive BTree where
  | url (id name u : String) : BTree
  | folder (id name : String) (children : List BTree) : BTree
deriving Repr

mutual
/-- The JSON object a §3 node is stored as. -/
def BTree.toJson : BTree → Json
  | BTree.url i n u => Json.obj [("id", Json.str i), ("name", Json.str n),
      ("type", Json.str "url"), ("url", Json.str u)]
  | BTree.folder i n cs => Json.obj [("id", Json.str i), ("name", Json.str n),
      ("type", Json.str "folder"), ("children", Json.arr (toJsonList cs))]

def toJsonList : List BTree → List Json
  | [] => []
  | t :: ts => BTree.toJson t :: toJsonList ts
end

mutual
/-- What `traverse` does on an encoded §3 tree, written structurally: a
url leaf with nonempty url emits one record carrying the accumulated path;
a folder extends the path with its own name (skipping the separator when
the carried path is empty) and walks its children in order. -/
def traverseB (profile : String) : BTree → String → List BookmarkItem
  | BTree.url i n u, p =>
      if u ≠ "" then
        [⟨some (Json.str i), some (Json.str n), some (Json.str u),
          some (Json.str p), profile⟩]
      else []
  | BTree.folder _ n cs, p =>
      traverseBList profile cs (if p ≠ "" then p ++ " / " ++ n else n)

def traverseBList (profile : String) : List BTree → String → List BookmarkItem
  | [], _ => []
  | t :: ts, p => traverseB profile t p ++ traverseBList profile ts p
end

mutual
theorem traverse_toJson (profile : String) (t : BTree) (p : String) :
    traverse profile t.toJson (some (Json.str p)) =
      Except.ok (traverseB profile t p) := by
  cases t with
  | url i n u =>
    by_cases hu : u = ""
    · subst hu
      rw [traverse_skip profile _ (by simp [BTree.toJson, Json.isNull])
        (by simp [BTree.toJson, getField, lookupField, jsEqStr, jsTruthy])
        (by simp [BTree.toJson, getField, lookupField, jsTruthy])]
      rw [traverseB]
      simp
    · have hut : jsTruthy (getField (BTree.url i n u).toJson "url") = true := by
        simp [BTree.toJson, getField, lookupField, jsTruthy, hu]
      rw [traverse_url profile _ (by simp [BTree.toJson, Json.isNull])
        (by simp [BTree.toJson, getField, lookupField, jsEqStr]) hut]
      rw [traverseB]
      simp [BTree.toJson, getField, lookupField, hu]
  | folder i n cs =>
    rw [@traverse_descend ((BTree.folder i n cs).toJson) (toJsonList cs) profile
      (some (Json.str p)) (by simp [BTree.toJson, Json.isNull])
      (by simp [BTree.toJson, getField, lookupField, jsEqStr])
      (by simp [BTree.toJson, getField, lookupField])]
    have hname : getField (BTree.folder i n cs).toJson "name" = some (Json.str n) := by
      simp [BTree.toJson, getField, lookupField]
    rw [hname]
    rw [traverseB]
    by_cases hp : p = ""
    · subst hp
      have : folderNewPath (some (Json.str "")) (some (Json.str n)) =
          some (Json.str n) := by rfl
      rw [this]
      simp only [ne_eq, not_true_eq_false, if_false]
      exact traverseList_toJson profile cs n
    · have hq : folderNewPath (some (Json.str p)) (some (Json.str n)) =
          some (Json.str (p ++ " / " ++ n)) := by
        simp [folderNewPath, jsTruthy, jsToString, jsonToString, hp]
      rw [hq]
      simp only [ne_eq, hp, not_false_eq_true, if_true]
      exact traverseList_toJson profile cs (p ++ " / " ++ n)
termination_by sizeOf t

theorem traverseList_toJson (profile : String) (ts : List BTree) (p : String) :
    traverseList profile (toJsonList ts) (some (Json.str p)) =
      Except.ok (traverseBList profile ts p) := by
  cases ts with
  | nil =>
    rw [toJsonList, traverseBList]
    exact traverseList_nil profile _
  | cons t rest =>
    rw [toJsonList, traverseBList]
    exact traverseList_cons_ok profile _ (traverse_toJson profile t p)
      (traverseList_toJson profile rest p)
termination_by sizeOf ts
end

/-! The bookmark file's top-level structure and its encoding. -/

/-- §3 BookmarkTreeRoot: up to three named root trees, any may be absent. -/
structure RootsObj where
  bookmark_bar : Option BTree
  other : Option BTree
  synced : Option BTree

/-- One optional key of the `roots` object. -/
def optRootField (key : String) : Option BTree → List (String × Json)
  | none => []
  | some t => [(key, t.toJson)]

/-- The parsed form of a bookmark file holding exactly the present root
trees: `{"roots": {...}}`. -/
def encodeRoots (r : RootsObj) : Json :=
  Json.obj [("roots", Json.obj (optRootField "bookmark_bar" r.bookmark_bar ++
    optRootField "other" r.other ++ optRootField "synced" r.synced))]

/-- The present root trees in the fixed order bookmark_bar, other, synced. -/
def rootTrees (r : RootsObj) : List BTree :=
  r.bookmark_bar.toList ++ r.other.toList ++ r.synced.toList

/-- The flat records the source produces for a well-formed bookmark file. -/
def flattenRoots (r : RootsObj) (profile : String) : List BookmarkItem :=
  traverseBList profile (rootTrees r) ""

theorem jsTruthy_toJson (t : BTree) : jsTruthy (some t.toJson) = true := by
  cases t <;> simp [BTree.toJson, jsTruthy]

theorem extractRoots_encode (r : RootsObj) :
    extractRoots (encodeRoots r) = Except.ok (toJsonList (rootTrees r)) := by
  obtain ⟨b, o, s⟩ := r
  cases b <;> cases o <;> cases s <;>
    simp [extractRoots, encodeRoots, optRootField, rootTrees, getField,
      lookupField, optChainGet, jsTruthy_toJson, Json.isNull, toJsonList]

theorem flattenText_encode (r : RootsObj) (profile : String) :
    flattenText (some (encodeRoots r)) profile =
      Except.ok (flattenRoots r profile) := by
  simp only [flattenText, extractRoots_encode]
  rw [flattenRoots, traverseList_toJson]

/-! Definitions taken from the spec's words (§4.2, §8), to compare the
source's behaviour against. -/

/-- Modelled from the spec: "the join of the n ancestor folder names",
with the source's " / " separator. -/
def specJoin : List String → String
  | [] => ""
  | [a] => a
  | a :: rest => a ++ " / " ++ specJoin rest

mutual
/-- Modelled from the spec (§8): the folder path of each url-typed leaf, in
document order, where a leaf's folder path is the join of the ancestor
folder names accumulated in `anc`. -/
def specLeafPaths : BTree → List String → List String
  | BTree.url _ _ _, anc => [specJoin anc]
  | BTree.folder _ n cs, anc => specLeafPathsList cs (anc ++ [n])

def specLeafPathsList : List BTree → List String → List String
  | [], _ => []
  | t :: ts, anc => specLeafPaths t anc ++ specLeafPathsList ts anc
end

mutual
/-- Modelled from the spec (§8): the number of url-typed leaf nodes. -/
def specUrlLeafCount : BTree → Nat
  | BTree.url _ _ _ => 1
  | BTree.folder _ _ cs => specUrlLeafCountList cs

def specUrlLeafCountList : List BTree → Nat
  | [] => 0
  | t :: ts => specUrlLeafCount t + specUrlLeafCountList ts
end

mutual
/-- The url-typed leaf nodes whose url is nonempty: what the source's
truthiness check actually emits. -/
def nonemptyUrlLeafCount : BTree → Nat
  | BTree.url _ _ u => if u ≠ "" then 1 else 0
  | BTree.folder _ _ cs => nonemptyUrlLeafCountList cs

def nonemptyUrlLeafCountList : List BTree → Nat
  | [] => 0
  | t :: ts => nonemptyUrlLeafCount t + nonemptyUrlLeafCountList ts
end

mutual
/-- Modelled from the spec (§4.2): the url values of the url-typed leaves
in depth-first pre-order document order, children in list order. -/
def specUrlsPre : BTree → List String
  | BTree.url _ _ u => [u]
  | BTree.folder _ _ cs => specUrlsPreList cs

def specUrlsPreList : List BTree → List String
  | [] => []
  | t :: ts => specUrlsPre t ++ specUrlsPreList ts
end

mutual
/-- Every url in the tree is nonempty. -/
def goodUrls : BTree → Bool
  | BTree.url _ _ u => u != ""
  | BTree.folder _ _ cs => goodUrlsList cs

def goodUrlsList : List BTree → Bool
  | [] => true
  | t :: ts => goodUrls t && goodUrlsList ts
end

mutual
/-- Every url and every folder name in the tree is nonempty. -/
def goodTree : BTree → Bool
  | BTree.url _ _ u => u != ""
  | BTree.folder _ n cs => n != "" && goodTreeList cs

def goodTreeList : List BTree → Bool
  | [] => true
  | t :: ts => goodTree t && goodTreeList ts
end

/-! Relating the traversal to the spec-side definitions. -/

mutual
theorem traverseB_length (profile : String) (t : BTree) (p : String) :
    (traverseB profile t p).length = nonemptyUrlLeafCount t := by
  cases t with
  | url i n u =>
    simp only [traverseB, nonemptyUrlLeafCount]
    by_cases hu : u = "" <;> simp [hu]
  | folder i n cs =>
    simp only [traverseB, nonemptyUrlLeafCount]
    exact traverseBList_length profile cs _
termination_by sizeOf t

theorem traverseBList_length (profile : String) (ts : List BTree) (p : String) :
    (traverseBList profile ts p).length = nonemptyUrlLeafCountList ts := by
  cases ts with
  | nil => simp only [traverseBList, nonemptyUrlLeafCountList, List.length_nil]
  | cons t rest =>
    simp only [traverseBList, nonemptyUrlLeafCountList, List.length_append]
    rw [traverseB_length profile t p, traverseBList_length profile rest p]
termination_by sizeOf ts
end

mutual
theorem traverseB_urls (profile : String) (t : BTree) (p : String)
    (hg : goodUrls t = true) :
    (traverseB profile t p).map BookmarkItem.url =
      (specUrlsPre t).map (fun u => some (Json.str u)) := by
  cases t with
  | url i n u =>
    simp only [goodUrls, bne_iff_ne, ne_eq] at hg
    simp only [traverseB, specUrlsPre]
    simp [hg]
  | folder i n cs =>
    simp only [goodUrls] at hg
    simp only [traverseB, specUrlsPre]
    exact traverseBList_urls profile cs _ hg
termination_by sizeOf t

theorem traverseBList_urls (profile : String) (ts : List BTree) (p : String)
    (hg : goodUrlsList ts = true) :
    (traverseBList profile ts p).map BookmarkItem.url =
      (specUrlsPreList ts).map (fun u => some (Json.str u)) := by
  cases ts with
  | nil => simp only [traverseBList, specUrlsPreList, List.map_nil]
  | cons t rest =>
    simp only [goodUrlsList, Bool.and_eq_true] at hg
    simp only [traverseBList, specUrlsPreList, List.map_append]
    rw [traverseB_urls profile t p hg.1, traverseBList_urls profile rest p hg.2]
termination_by sizeOf ts
end

theorem specJoin_append (anc : List String) (n : String) (h : anc ≠ []) :
    specJoin (anc ++ [n]) = specJoin anc ++ " / " ++ n := by
  induction anc with
  | nil => exact absurd rfl h
  | cons a rest ih =>
    cases rest with
    | nil => simp [specJoin]
    | cons b rest2 =>
      have hr : (b :: rest2 : List String) ≠ [] := by simp
      simp only [List.cons_append, specJoin, List.append_eq]
      rw [← List.cons_append, ih hr]
      simp [String.append_assoc]

theorem append_sep_ne_empty (x n : String) : x ++ " / " ++ n ≠ "" := by
  intro h
  have hlen := congrArg String.length h
  have h3 : (" / " : String).length = 3 := rfl
  have h0 : ("" : String).length = 0 := rfl
  simp only [String.length_append, h3, h0] at hlen
  omega

mutual
theorem traverseB_paths (profile : String) (t : BTree) (anc : List String)
    (hg : goodTree t = true) (ha : anc ≠ []) (hne : specJoin anc ≠ "") :
    (traverseB profile t (specJoin anc)).map BookmarkItem.path =
      (specLeafPaths t anc).map (fun s => some (Json.str s)) := by
  cases t with
  | url i n u =>
    simp only [goodTree, bne_iff_ne, ne_eq] at hg
    simp only [traverseB, specLeafPaths]
    simp [hg]
  | folder i n cs =>
    simp only [goodTree, Bool.and_eq_true] at hg
    simp only [traverseB, specLeafPaths]
    rw [if_pos hne]
    rw [(specJoin_append anc n ha).symm]
    exact traverseBList_paths profile cs (anc ++ [n]) hg.2 (by simp)
      (by rw [specJoin_append anc n ha]; exact append_sep_ne_empty _ _)
termination_by sizeOf t

theorem traverseBList_paths (profile : String) (ts : List BTree) (anc : List String)
    (hg : goodTreeList ts = true) (ha : anc ≠ []) (hne : specJoin anc ≠ "") :
    (traverseBList profile ts (specJoin anc)).map BookmarkItem.path =
      (specLeafPathsList ts anc).map (fun s => some (Json.str s)) := by
  cases ts with
  | nil => simp only [traverseBList, specLeafPathsList, List.map_nil]
  | cons t rest =>
    simp only [goodTreeList, Bool.and_eq_true] at hg
    simp only [traverseBList, specLeafPathsList, List.map_append]
    rw [traverseB_paths profile t anc hg.1 ha hne,
      traverseBList_paths profile rest anc hg.2 ha hne]
termination_by sizeOf ts
end

theorem traverseB_paths_root (profile : String) (t : BTree)
    (hg : goodTree t = true) :
    (traverseB profile t "").map BookmarkItem.path =
      (specLeafPaths t []).map (fun s => some (Json.str s)) := by
  cases t with
  | url i n u =>
    simp only [goodTree, bne_iff_ne, ne_eq] at hg
    simp only [traverseB, specLeafPaths, specJoin]
    simp [hg]
  | folder i n cs =>
    simp only [goodTree, Bool.and_eq_true, bne_iff_ne, ne_eq] at hg
    simp only [traverseB, specLeafPaths]
    rw [if_neg (by simp)]
    have hnn : specJoin [n] ≠ "" := hg.1
    have := traverseBList_paths profile cs [n] hg.2 (by simp) hnn
    simpa using this

theorem traverseBList_paths_root (profile : String) (ts : List BTree)
    (hg : goodTreeList ts = true) :
    (traverseBList profile ts "").map BookmarkItem.path =
      (specLeafPathsList ts []).map (fun s => some (Json.str s)) := by
  induction ts with
  | nil => simp only [traverseBList, specLeafPathsList, List.map_nil]
  | cons t rest ih =>
    simp only [goodTreeList, Bool.and_eq_true] at hg
    simp only [traverseBList, specLeafPathsList, List.map_append]
    rw [traverseB_paths_root profile t hg.1, ih hg.2]

/-! The profile locator (src lines 25–38, 56, 73–121). -/

/-- src lines 17–22 (field `macPathParts` carries the source's macOS path
suffix, `macPathPrefix` there). -/
structure BrowserConfig where
  name : String
  macPathParts : List String
  winPathCandidates : List (List String)

/-- src lines 26–31. -/
def chromeConfig : BrowserConfig :=
  ⟨"Google Chrome", ["Google", "Chrome"], [["Google", "Chrome", "User Data"]]⟩

/-- src lines 32–37. -/
def edgeConfig : BrowserConfig :=
  ⟨"Microsoft Edge", ["Microsoft Edge"], [["Microsoft", "Edge", "User Data"]]⟩

/-- src line 56. -/
def PROFILES_TO_CHECK : List String :=
  ["Default", "Profile 1", "Profile 2", "Profile 3"]

/-- path.join modelled with "/" separators. -/
def joinSegs (segs : List String) : String := String.intercalate "/" segs

/-- src lines 90–91: `process.env.LOCALAPPDATA || path.join(homeDir,
"AppData", "Local")` — an unset or empty (falsy) variable falls back. -/
def localAppDataDir (envLocalAppData : Option String) (homeDir : String) : String :=
  match envLocalAppData with
  | some s => if s = "" then joinSegs [homeDir, "AppData", "Local"] else s
  | none => joinSegs [homeDir, "AppData", "Local"]

/-- src lines 78–95: the ordered candidate base directories. -/
def candidateBasePaths (cfg : BrowserConfig) (isMac : Bool) (homeDir : String)
    (envLocalAppData : Option String) : List String :=
  if isMac then
    [joinSegs ([homeDir, "Library", "Application Support"] ++ cfg.macPathParts)]
  else
    cfg.winPathCandidates.map
      (fun segs => joinSegs (localAppDataDir envLocalAppData homeDir :: segs))

/-- src lines 98–113: the labelled nested loop over base paths (outer) and
profile names (inner). `acc` models `fs.access` resolving on a path (a
rejection is caught and the next candidate tried); the first hit is returned
with its profile label, and `none` models reaching the end of both loops
with `foundPath` still empty. -/
def locate (acc : String → Bool) (basePaths : List String) :
    Option (String × String) :=
  basePaths.findSome? fun basePath =>
    PROFILES_TO_CHECK.findSome? fun profile =>
      let checkPath := joinSegs [basePath, profile, "Bookmarks"]
      if acc checkPath then some (checkPath, profile) else none

/-- src lines 115–121: the message thrown when no candidate matched. -/
def notFoundMessage (cfg : BrowserConfig) (isMac : Bool) : String :=
  "Could not find " ++ cfg.name ++
    " bookmarks. Please check if installed or Raycast has " ++
    (if isMac then "Full Disk Access permission" else "installation path") ++ "."

/-- The (path, profile) candidates in the order the nested loop tests them:
base directories outer, profile names inner. -/
def candidatePairs (basePaths : List String) : List (String × String) :=
  basePaths.flatMap fun basePath =>
    PROFILES_TO_CHECK.map fun profile =>
      (joinSegs [basePath, profile, "Bookmarks"], profile)

theorem findSome_if_eq_find {α : Type} (l : List (α × String)) (q : α → Bool) :
    (l.findSome? fun c => if q c.1 then some c else none) = l.find? fun c => q c.1 := by
  induction l with
  | nil => rfl
  | cons c rest ih =>
    rw [List.findSome?_cons, List.find?_cons]
    by_cases hq : q c.1 = true
    · simp [hq]
    · simp only [Bool.not_eq_true] at hq
      simp [hq, ih]

theorem locate_eq_find (acc : String → Bool) (basePaths : List String) :
    locate acc basePaths = (candidatePairs basePaths).find? fun c => acc c.1 := by
  induction basePaths with
  | nil => rfl
  | cons b rest ih =>
    rw [locate, List.findSome?_cons]
    rw [candidatePairs, List.flatMap_cons, List.find?_append]
    rw [locate] at ih
    rw [candidatePairs] at ih
    rw [ih]
    have inner : (PROFILES_TO_CHECK.findSome? fun profile =>
        let checkPath := joinSegs [b, profile, "Bookmarks"]
        if acc checkPath then some (checkPath, profile) else none) =
        (PROFILES_TO_CHECK.map fun profile =>
          (joinSegs [b, profile, "Bookmarks"], profile)).find? fun c => acc c.1 := by
      rw [← findSome_if_eq_find (q := acc)]
      rw [List.findSome?_map]
      rfl
    rw [inner]
    cases hfind : (PROFILES_TO_CHECK.map fun profile =>
        (joinSegs [b, profile, "Bookmarks"], profile)).find? fun c => acc c.1 <;>
      simp [hfind]

/-! The command's UI state and the effect of one fetch (src lines 58–186). -/

/-- JS `msg.includes(pat)`: substring containment. -/
def includesSub (msg pat : String) : Bool := decide (pat.toList <:+: msg.toList)

/-- src lines 160–165: the permission signatures checked on the message. -/
def isPermissionMsg (msg : String) : Bool :=
  includesSub msg "EPERM" || includesSub msg "EACCES" ||
    includesSub msg "Operation not permitted" ||
    includesSub msg "Full Disk Access"

/-- The four pieces of React state the command keeps (src lines 59–63),
without the selection. -/
structure UiState where
  bookmarks : List BookmarkItem
  error : Option String
  isLoading : Bool
  permissionIssue : Bool
deriving Repr

/-- src lines 66–182: the state updates one run of `fetchBookmarks`
performs, in source order — the initial resets (lines 67–70), then either
the success assignment (line 153) or the catch branch (lines 154–179), then
the `finally` (line 181). `outcome` is the result of the try body: the
flattened items, or the message of whatever error was thrown (NotFound,
a file-system failure such as PermissionDenied, or ParseError). -/
def fetchUpdate (prev : UiState) (outcome : Except String (List BookmarkItem)) :
    UiState :=
  let reset : UiState :=
    { prev with
        isLoading := true
        error := none
        permissionIssue := false
        bookmarks := [] }
  let afterTry : UiState :=
    match outcome with
    | Except.ok items => { reset with bookmarks := items }
    | Except.error msg =>
        { reset with error := some msg, permissionIssue := isPermissionMsg msg }
  { afterTry with isLoading := false }

/-! The selection race (src lines 65–186): `useEffect` re-runs
`fetchBookmarks` on every change of `selectedBrowser`, and each run applies
its completion with plain `setBookmarks`/`setError` calls — nothing compares
the selection the request was issued for against the current one. -/

/-- The React state including the selection. -/
structure AppState where
  selection : String
  bookmarks : List BookmarkItem
  error : Option String
  isLoading : Bool
  permissionIssue : Bool
deriving Repr

/-- The observable events of the command: a dropdown selection change
(src line 197), the synchronous prefix of an effect run (src lines 67–70),
and the completion of an awaited fetch body. `issuedFor` records which
selection a fetch was started for; the source keeps no such tag, so the
completion step below cannot and does not consult it. -/
inductive UiEvent where
  | select (browser : String) : UiEvent
  | start (issuedFor : String) : UiEvent
  | complete (issuedFor : String)
      (outcome : Except String (List BookmarkItem)) : UiEvent

/-- One event's state update, exactly as the source's setState calls run:
a completion is applied unconditionally, whatever `issuedFor` was. -/
def uiStep (s : AppState) : UiEvent → AppState
  | UiEvent.select b => { s with selection := b }
  | UiEvent.start _ =>
      { s with
          isLoading := true
          error := none
          permissionIssue := false
          bookmarks := [] }
  | UiEvent.complete _ outcome =>
    match outcome with
    | Except.ok items => { s with bookmarks := items, isLoading := false }
    | Except.error msg =>
        { s with
            error := some msg
            permissionIssue := isPermissionMsg msg
            isLoading := false }

def runEvents (s : AppState) (es : List UiEvent) : AppState := es.foldl uiStep s

/-! The claims. -/

/-- C2 counterexample: the claim says an input lacking a `roots` object
entirely fails with a ParseError, but on `{}` (valid JSON, no `roots`) the
source raises no error and returns zero records. -/
theorem c2_counterexample :
    flattenText (some (Json.obj [])) "Default" = Except.ok [] := by
  have hex : extractRoots (Json.obj []) = Except.ok [] := rfl
  simp only [flattenText, hex]
  exact traverseList_nil "Default" _

/-- C2 (amended): flatten fails with a ParseError when the text is not
valid JSON (`parsed = none`); an input whose `roots` object is absent is
tolerated — it yields zero records with no error — and a well-formed file
with any subset of the three root trees present is flattened without error
(absent individual trees are simply skipped). -/
theorem c2_parse_failure_only (profile : String) :
    flattenText none profile = Except.error () ∧
    (∀ j : Json, j.isNull = false → getField j "roots" = none →
      flattenText (some j) profile = Except.ok []) ∧
    (∀ r : RootsObj, flattenText (some (encodeRoots r)) profile =
      Except.ok (flattenRoots r profile)) := by
  refine ⟨rfl, ?_, fun r => flattenText_encode r profile⟩
  intro j hn hr
  have hex : extractRoots j = Except.ok [] := by
    simp [extractRoots, hn, hr, optChainGet, jsTruthy]
  simp only [flattenText, hex]
  exact traverseList_nil profile _

/-- C3: the locator reports not-found exactly when no candidate path
`<base>/<profile>/Bookmarks` is accessible — every base directory × profile
combination is consulted before concluding, and an inaccessible candidate
is skipped (the embedding's `acc` is total: a rejected `fs.access` is
caught and the loop continues). -/
theorem c3_notfound_iff (acc : String → Bool) (basePaths : List String) :
    locate acc basePaths = none ↔
      ∀ b ∈ basePaths, ∀ p ∈ PROFILES_TO_CHECK,
        acc (joinSegs [b, p, "Bookmarks"]) = false := by
  rw [locate, List.findSome?_eq_none_iff]
  constructor
  · intro h b hb p hp
    have h2 := h b hb
    rw [List.findSome?_eq_none_iff] at h2
    have h3 := h2 p hp
    by_cases hacc : acc (joinSegs [b, p, "Bookmarks"]) = true
    · simp [hacc] at h3
    · simpa using hacc
  · intro h b hb
    rw [List.findSome?_eq_none_iff]
    intro p hp
    simp [h b hb p hp]

/-- C4: the locator returns the first accessible candidate in the order
base directories outer, profiles (Default, Profile 1, Profile 2, Profile 3)
inner, as the pair (path, matched profile label); and the not-found message
carries the browser's display name and the platform hint ("Full Disk Access
permission" on macOS, "installation path" otherwise). -/
theorem c4_first_match_and_notfound (acc : String → Bool) (basePaths : List String)
    (cfg : BrowserConfig) (isMac : Bool) :
    locate acc basePaths = (candidatePairs basePaths).find? (fun c => acc c.1) ∧
    (∃ pre mid post : String, notFoundMessage cfg isMac =
      pre ++ cfg.name ++ mid ++
        (if isMac then "Full Disk Access permission" else "installation path")
        ++ post) :=
  ⟨locate_eq_find acc basePaths,
    ⟨"Could not find ", " bookmarks. Please check if installed or Raycast has ",
      ".", rfl⟩⟩

/-- The §3-valid input the C5 claim fails on: a url-typed leaf whose url is
the empty string. -/
def emptyUrlTree : BTree := BTree.url "1" "Empty" ""

/-- C5 counterexample: on a valid tree with one url-typed leaf (url = ""),
flatten emits zero records while the claim predicts one per url-typed leaf. -/
theorem c5_counterexample :
    flattenText (some (encodeRoots ⟨some emptyUrlTree, none, none⟩)) "Default" =
      Except.ok [] ∧
    specUrlLeafCountList (rootTrees ⟨some emptyUrlTree, none, none⟩) = 1 := by
  constructor
  · rw [flattenText_encode]
    have h : flattenRoots ⟨some emptyUrlTree, none, none⟩ "Default" = [] := by
      simp [flattenRoots, rootTrees, traverseBList, traverseB, emptyUrlTree,
        Option.toList]
    rw [h]
  · simp [rootTrees, specUrlLeafCountList, specUrlLeafCount, emptyUrlTree,
      Option.toList]

/-- C5 (amended): for every valid BookmarkTreeRoot input the number of
emitted records equals the number of url-typed leaf nodes *with a nonempty
url* reachable from the three roots combined (a url-typed leaf whose url is
absent or empty is skipped by the truthiness check); occurrences are
counted, not deduplicated, so repeated URLs under different folders each
yield a distinct record. -/
theorem c5_record_count (r : RootsObj) (profile : String) :
    flattenText (some (encodeRoots r)) profile =
      Except.ok (flattenRoots r profile) ∧
    (flattenRoots r profile).length = nonemptyUrlLeafCountList (rootTrees r) :=
  ⟨flattenText_encode r profile, traverseBList_length profile (rootTrees r) ""⟩

/-- C7: whatever error the fetch body throws (NotFound, PermissionDenied,
ParseError — all reach the same catch), the previously displayed list is
fully reset: after the run the bookmark list is empty, the error is set and
loading is over, for every prior state. -/
theorem c7_error_resets (prev : UiState) (msg : String) :
    (fetchUpdate prev (Except.error msg)).bookmarks = [] ∧
    (fetchUpdate prev (Except.error msg)).error = some msg ∧
    (fetchUpdate prev (Except.error msg)).isLoading = false :=
  ⟨rfl, rfl, rfl⟩

/-- The leaf of the spec's §8 example input. -/
def ex8Leaf : Json :=
  Json.obj [("id", Json.str "1"), ("type", Json.str "url"),
    ("name", Json.str "Example"), ("url", Json.str "https://example.com")]

/-- The §8 example root: a bookmark_bar named "Bar" with the one url child. -/
def ex8Root : Json :=
  Json.obj [("type", Json.str "folder"), ("name", Json.str "Bar"),
    ("children", Json.arr [ex8Leaf])]

/-- The §8 example input as parsed JSON. -/
def ex8Json : Json := Json.obj [("roots", Json.obj [("bookmark_bar", ex8Root)])]

/-- C1 counterexample: on the §8 example input the emitted folderPath is
"Bar" — the root container's own name — not the empty string the claim
requires. -/
theorem c1_counterexample :
    flattenText (some ex8Json) "Default" =
      Except.ok [⟨some (Json.str "1"), some (Json.str "Example"),
        some (Json.str "https://example.com"), some (Json.str "Bar"),
        "Default"⟩] ∧
    Json.str "Bar" ≠ Json.str "" := by
  refine ⟨?_, by simp⟩
  have hleaf : traverse "Default" ex8Leaf (some (Json.str "Bar")) =
      Except.ok [⟨some (Json.str "1"), some (Json.str "Example"),
        some (Json.str "https://example.com"), some (Json.str "Bar"),
        "Default"⟩] := by
    rw [@traverse_url ex8Leaf "Default" (some (Json.str "Bar")) rfl rfl rfl]
    rfl
  have hroot : traverse "Default" ex8Root (some (Json.str "")) =
      Except.ok [⟨some (Json.str "1"), some (Json.str "Example"),
        some (Json.str "https://example.com"), some (Json.str "Bar"),
        "Default"⟩] := by
    rw [@traverse_descend ex8Root [ex8Leaf] "Default" (some (Json.str ""))
      rfl rfl rfl]
    have hpath : folderNewPath (some (Json.str "")) (getField ex8Root "name") =
        some (Json.str "Bar") := rfl
    rw [hpath, traverseList_cons_ok "Default" _ hleaf (traverseList_nil "Default" _)]
    rfl
  have hex : extractRoots ex8Json = Except.ok [ex8Root] := rfl
  simp only [flattenText, hex]
  rw [traverseList_cons_ok "Default" _ hroot (traverseList_nil "Default" _)]
  rfl

/-- C1 (amended): the root containers' own names are part of the emitted
folderPath: a bookmark that is a direct child of a root has folderPath equal
to the root's own name, and a bookmark at depth n has folderPath equal to
the " / "-join of the root's name followed by its n ancestor folder names
(so the §8 example yields folderPath "Bar"). `specLeafPathsList (rootTrees r)
[]` realises exactly this: each root enters the spec-side join with the
ancestor list starting at itself, so its own name is the first component.
Stated for well-formed trees whose names and urls are nonempty. -/
theorem c1_root_name_included (r : RootsObj) (profile : String)
    (hg : goodTreeList (rootTrees r) = true) :
    flattenText (some (encodeRoots r)) profile =
      Except.ok (flattenRoots r profile) ∧
    (flattenRoots r profile).map BookmarkItem.path =
      (specLeafPathsList (rootTrees r) []).map (fun s => some (Json.str s)) :=
  ⟨flattenText_encode r profile, traverseBList_paths_root profile (rootTrees r) hg⟩

/-- A concrete two-level instance for the C1 witness: Bar > Work > leaf. -/
def c1Roots : RootsObj :=
  ⟨some (BTree.folder "b0" "Bar"
    [BTree.url "1" "Example" "https://example.com",
     BTree.folder "b1" "Work" [BTree.url "2" "Docs" "https://docs.example"]]),
   none, none⟩

theorem c1_witness :
    flattenText (some (encodeRoots c1Roots)) "Default" =
      Except.ok (flattenRoots c1Roots "Default") ∧
    (flattenRoots c1Roots "Default").map BookmarkItem.path =
      (specLeafPathsList (rootTrees c1Roots) []).map (fun s => some (Json.str s)) :=
  c1_root_name_included c1Roots "Default"
    (by simp [c1Roots, rootTrees, Option.toList, goodTreeList, goodTree])

/-- C6: the output sequence is deterministic (the embedding is a pure
function, so the final conjunct is definitional) and is ordered as the three
roots in the fixed order bookmark_bar, other, synced, each flattened in
depth-first pre-order document order (children in list order) — here as the
equality of the emitted url sequence with the spec-side pre-order listing,
for well-formed trees with nonempty urls. -/
theorem c6_output_order (r : RootsObj) (profile : String)
    (hg : goodUrlsList (rootTrees r) = true) :
    flattenText (some (encodeRoots r)) profile =
      Except.ok (flattenRoots r profile) ∧
    (flattenRoots r profile).map BookmarkItem.url =
      (specUrlsPreList (rootTrees r)).map (fun u => some (Json.str u)) ∧
    flattenText (some (encodeRoots r)) profile =
      flattenText (some (encodeRoots r)) profile :=
  ⟨flattenText_encode r profile,
    traverseBList_urls profile (rootTrees r) "" hg, rfl⟩

/-- A three-root instance for the C6 witness. -/
def c6Roots : RootsObj :=
  ⟨some (BTree.folder "b0" "Bar"
      [BTree.url "1" "A" "https://a.example",
       BTree.folder "b1" "Work" [BTree.url "2" "B" "https://b.example"]]),
   some (BTree.url "3" "C" "https://c.example"),
   some (BTree.url "4" "D" "https://d.example")⟩

theorem c6_witness :
    flattenText (some (encodeRoots c6Roots)) "Default" =
      Except.ok (flattenRoots c6Roots "Default") ∧
    (flattenRoots c6Roots "Default").map BookmarkItem.url =
      (specUrlsPreList (rootTrees c6Roots)).map (fun u => some (Json.str u)) ∧
    flattenText (some (encodeRoots c6Roots)) "Default" =
      flattenText (some (encodeRoots c6Roots)) "Default" :=
  c6_output_order c6Roots "Default"
    (by simp [c6Roots, rootTrees, Option.toList, goodUrlsList, goodUrls])

theorem traverseList_cons (profile : String) (c : Json) (rest : List Json)
    (folderPath : Option Json) :
    traverseList profile (c :: rest) folderPath =
      match traverse profile c folderPath with
      | Except.error e => Except.error e
      | Except.ok items =>
        match traverseList profile rest folderPath with
        | Except.error e => Except.error e
        | Except.ok more => Except.ok (items ++ more) := by
  rw [traverseList.eq_def]

theorem traverseList_append (profile : String) (l1 l2 : List Json)
    (folderPath : Option Json) :
    traverseList profile (l1 ++ l2) folderPath =
      match traverseList profile l1 folderPath with
      | Except.error e => Except.error e
      | Except.ok items =>
        match traverseList profile l2 folderPath with
        | Except.error e => Except.error e
        | Except.ok more => Except.ok (items ++ more) := by
  induction l1 with
  | nil =>
    rw [List.nil_append, traverseList_nil]
    cases h : traverseList profile l2 folderPath <;> simp
  | cons c rest ih =>
    rw [List.cons_append, traverseList_cons, traverseList_cons, ih]
    cases h1 : traverse profile c folderPath with
    | error e => rfl
    | ok items =>
      cases h2 : traverseList profile rest folderPath with
      | error e => rfl
      | ok more =>
        cases h3 : traverseList profile l2 folderPath with
        | error e => rfl
        | ok more2 => simp [List.append_assoc]

/-- C9: a node whose type is "url" but whose url is absent or the empty
string produces no record and no error — in any sibling list the node can
be dropped without changing the traversal's outcome. (The claim's nodes are
leaves: no children key.) -/
theorem c9_empty_url_skipped (node : Json) (profile : String)
    (folderPath : Option Json)
    (ht : getField node "type" = some (Json.str "url"))
    (hu : getField node "url" = none ∨ getField node "url" = some (Json.str ""))
    (hc : getField node "children" = none) :
    traverse profile node folderPath = Except.ok [] ∧
    ∀ pre post : List Json,
      traverseList profile (pre ++ node :: post) folderPath =
        traverseList profile (pre ++ post) folderPath := by
  have hn : node.isNull = false := by
    cases node <;> simp [getField, Json.isNull] at ht ⊢
  have hub : jsTruthy (getField node "url") = false := by
    cases hu with
    | inl h => rw [h]; rfl
    | inr h => rw [h]; rfl
  have hb : (jsEqStr (getField node "type") "url" &&
      jsTruthy (getField node "url")) = false := by
    rw [hub]; simp
  have hcf : jsTruthy (getField node "children") = false := by rw [hc]; rfl
  have hskip := traverse_skip profile folderPath hn hb hcf
  refine ⟨hskip, ?_⟩
  intro pre post
  have hmid : traverseList profile (node :: post) folderPath =
      traverseList profile post folderPath := by
    rw [traverseList_cons, hskip]
    cases h : traverseList profile post folderPath <;> simp
  rw [traverseList_append, traverseList_append, hmid]

theorem c9_witness :
    traverse "Default" (Json.obj [("type", Json.str "url"),
      ("name", Json.str "NoUrl")]) (some (Json.str "")) = Except.ok [] ∧
    ∀ pre post : List Json,
      traverseList "Default" (pre ++ Json.obj [("type", Json.str "url"),
          ("name", Json.str "NoUrl")] :: post) (some (Json.str "")) =
        traverseList "Default" (pre ++ post) (some (Json.str "")) :=
  c9_empty_url_skipped _ "Default" (some (Json.str "")) rfl (Or.inl rfl) rfl

/-- C10: the traversal discriminates folders by the children value, not the
type string: with no truthy url, a node carrying a children list is descended
into with the folder-path update, whatever its type field holds; and a
non-null node with neither a truthy url nor a children key contributes
nothing. -/
theorem c10_children_discriminate (node : Json) (profile : String)
    (folderPath : Option Json)
    (hu : jsTruthy (getField node "url") = false) :
    (∀ cs : List Json, getField node "children" = some (Json.arr cs) →
      traverse profile node folderPath =
        traverseList profile cs (folderNewPath folderPath (getField node "name"))) ∧
    (node.isNull = false → getField node "children" = none →
      traverse profile node folderPath = Except.ok []) := by
  have hb : (jsEqStr (getField node "type") "url" &&
      jsTruthy (getField node "url")) = false := by
    rw [hu]; simp
  constructor
  · intro cs hcs
    have hn : node.isNull = false := by
      cases node <;> simp [getField, Json.isNull] at hcs ⊢
    exact traverse_descend profile folderPath hn hb hcs
  · intro hn hcn
    exact traverse_skip profile folderPath hn hb (by rw [hcn]; rfl)

theorem c10_witness :
    traverse "Default" (Json.obj [("type", Json.str "url"),
        ("name", Json.str "F"), ("children", Json.arr [])])
      (some (Json.str "")) =
      traverseList "Default" []
        (folderNewPath (some (Json.str ""))
          (getField (Json.obj [("type", Json.str "url"), ("name", Json.str "F"),
            ("children", Json.arr [])]) "name")) :=
  (c10_children_discriminate
    (Json.obj [("type", Json.str "url"), ("name", Json.str "F"),
      ("children", Json.arr [])]) "Default" (some (Json.str "")) rfl).1 [] rfl

/-- A record as a chrome fetch would produce it. -/
def chromeItemEx : BookmarkItem :=
  ⟨some (Json.str "c1"), some (Json.str "Chrome Docs"),
    some (Json.str "https://chrome.example/docs"), some (Json.str ""), "Default"⟩

/-- A record as an edge fetch would produce it. -/
def edgeItemEx : BookmarkItem :=
  ⟨some (Json.str "e1"), some (Json.str "Edge Docs"),
    some (Json.str "https://edge.example/docs"), some (Json.str ""), "Default"⟩

/-- The initial mount state (src lines 59–63): chrome selected, loading. -/
def initialAppState : AppState := ⟨"chrome", [], none, true, false⟩

/-- The racing interleaving: the effect for chrome starts; the user selects
edge while that read is in flight; the effect for edge starts and its
completion arrives; chrome's stale completion arrives last. -/
def staleTrace : List UiEvent :=
  [UiEvent.start "chrome", UiEvent.select "edge", UiEvent.start "edge",
   UiEvent.complete "edge" (Except.ok [edgeItemEx]),
   UiEvent.complete "chrome" (Except.ok [chromeItemEx])]

/-- C8 fails on the code: the effect applies every completion with plain
setState calls and never compares the selection a request was issued for
with the current one, so after `staleTrace` the selection is edge while the
displayed list is the one fetched for chrome. -/
theorem c8_stale_completion_applied :
    (runEvents initialAppState staleTrace).selection = "edge" ∧
    (runEvents initialAppState staleTrace).bookmarks = [chromeItemEx] ∧
    chromeItemEx ≠ edgeItemEx := by
  refine ⟨rfl, rfl, ?_⟩
  simp [chromeItemEx, edgeItemEx]
